import Mathlib

/-!
Verification development for the Vestige commitment-and-allocation protocol.

The embedding covers two layers of the system:

* the on-chain instruction semantics (public `commit`, `calculateAllocation`,
  allocation weights) — the Anchor program itself ships separately from this
  repository, so those instructions are modelled from the specification text
  (each such definition carries a `Modelled from the spec:` doc comment);
* the client orchestration in `frontend/lib/vestige-client.ts`
  (`withRateLimitRetry`, `enablePrivateMode`, the `commit` dispatch between the
  public and the delegated private flow, `getProgress`, and the
  non-writable-signer key rewriting for ephemeral-rollup transactions), which
  is embedded directly from the TypeScript source.

Amounts, timestamps and weights are lamport/second/basis-point quantities and
are modelled as `Nat`; public keys are abstracted as `Nat` identifiers.
-/

namespace Vestige

/-- Error taxonomy of the program (spec §7).  `NotGraduated` is the guard the
spec implies for `calculateAllocation` ("runs ... only after Launch.isGraduated
is true"); the spec does not name that error, the remaining names are the
spec's own. -/
inductive VestigeError where
  | InvalidTimeRange
  | BelowMinCommitment
  | AboveMaxCommitment
  | SaleWindowClosed
  | SaleNotStarted
  | AlreadyGraduated
  | AllocationAlreadyCalculated
  | NotGraduated
  deriving Repr, DecidableEq

/-- Launch account (data model, spec §3): sale parameters and post-graduation
totals.  Field names follow `LaunchData` in `vestige-client.ts`. -/
structure Launch where
  creator : Nat
  tokenMint : Nat
  tokenSupply : Nat
  startTime : Nat
  endTime : Nat
  graduationTarget : Nat
  minCommitment : Nat
  maxCommitment : Nat
  totalCommitted : Nat
  totalParticipants : Nat
  isGraduated : Bool
  isDelegated : Bool
  graduationTime : Nat
  deriving Repr, DecidableEq

/-- UserCommitment account (one per launch × participant), as in
`UserCommitmentData` of `vestige-client.ts`. -/
structure UserCommitment where
  user : Nat
  amount : Nat
  commitTime : Nat
  weight : Nat
  tokensAllocated : Nat
  hasClaimed : Bool
  deriving Repr, DecidableEq

/-- CommitmentPool account: the sale's mutable aggregate (spec §3). -/
structure CommitmentPool where
  totalCommitted : Nat
  totalParticipants : Nat
  deriving Repr, DecidableEq

/-- The base-ledger state a public commit touches: the pool, the set of
existing UserCommitment accounts (an association list keyed by the user's
public key — each entry is one PDA account), and the vault balance. -/
structure PoolState where
  pool : CommitmentPool
  users : List (Nat × UserCommitment)
  vault : Nat
  deriving Repr, DecidableEq

/-- Fresh state right after `initializeLaunch`: zero totals, no user
commitment accounts, empty vault. -/
def initPoolState : PoolState :=
  { pool := { totalCommitted := 0, totalParticipants := 0 }
    users := []
    vault := 0 }

/-- Look up the UserCommitment account of user `u` (the PDA exists iff the
lookup returns `some`). -/
def findUser (users : List (Nat × UserCommitment)) (u : Nat) :
    Option UserCommitment :=
  match users with
  | [] => none
  | (k, uc) :: rest => if k = u then some uc else findUser rest u

/-- Apply a commit of `a` at time `t` to user `u`'s account: accumulate into
the existing account, or create the account with `commitTime := t` on the
first commit. -/
def upsertUser (users : List (Nat × UserCommitment)) (u a t : Nat) :
    List (Nat × UserCommitment) :=
  match users with
  | [] => [(u, { user := u, amount := a, commitTime := t, weight := 0,
                 tokensAllocated := 0, hasClaimed := false })]
  | (k, uc) :: rest =>
    if k = u then (k, { uc with amount := uc.amount + a }) :: rest
    else (k, uc) :: upsertUser rest u a t

/-- Modelled from the spec: the public-path `commit(amount)` instruction of the
Anchor program (which is not part of this repository; spec §4.2,
"Non-delegated (public) path").  In a single base-ledger operation it
validates `amount ∈ [minCommitment, maxCommitment]` and the sale window,
transfers the funds into the Vault, accumulates `UserCommitment.amount`
(setting `commitTime` on first commit), and increments
`CommitmentPool.totalCommitted` — bumping `totalParticipants` only when this
is the user's first commit. -/
def commit (l : Launch) (st : PoolState) (u a t : Nat) :
    Except VestigeError PoolState :=
  if a < l.minCommitment then .error .BelowMinCommitment
  else if l.maxCommitment < a then .error .AboveMaxCommitment
  else if t < l.startTime then .error .SaleNotStarted
  else if l.endTime < t then .error .SaleWindowClosed
  else
    let firstCommit := (findUser st.users u).isNone
    .ok { pool :=
            { totalCommitted := st.pool.totalCommitted + a
              totalParticipants :=
                st.pool.totalParticipants + (if firstCommit then 1 else 0) }
          users := upsertUser st.users u a t
          vault := st.vault + a }

/-- One commit request of the public path. -/
structure CommitReq where
  user : Nat
  amount : Nat
  time : Nat
  deriving Repr, DecidableEq

/-- Run a sequence of public commits; fails as soon as one commit fails. -/
def applyCommits (l : Launch) (st : PoolState) :
    List CommitReq → Except VestigeError PoolState
  | [] => .ok st
  | c :: cs =>
    match commit l st c.user c.amount c.time with
    | .ok st' => applyCommits l st' cs
    | .error e => .error e

/-! ### Allocation calculator (spec §4.4) -/

/-- Weight of a full (1.0×) multiplier in basis points: the allocation page
(`frontend/app/allocation/page.tsx`) renders the multiplier as
`weight / 10000`, with `weight > 10000` labelled "Early". -/
def WEIGHT_BASE_BPS : Nat := 10000

/-- Maximum extra early-bonus weight, in basis points (a 2.0× multiplier for a
commit at the very start of the window, decaying to 1.0× at the end). -/
def EARLY_BONUS_BPS : Nat := 10000

/-- Modelled from the spec: the allocation weight curve of
`calculate_allocation` (the Anchor program is not part of this repository).
Spec §4.4 fixes the required shape — "earlier commitments receive a
multiplicatively larger weight", "e.g., linear decay from a maximum
early-multiplier to 1.0× across the window" — and this model uses that linear
decay, in basis points of 10000 as displayed by the allocation page. -/
def calculateWeight (l : Launch) (commitTime : Nat) : Nat :=
  WEIGHT_BASE_BPS +
    EARLY_BONUS_BPS * (l.endTime - commitTime) / (l.endTime - l.startTime)

/-- A participant's weighted stake: `amount × weight`. -/
def weightedStake (l : Launch) (uc : UserCommitment) : Nat :=
  uc.amount * calculateWeight l uc.commitTime

/-- Sum of `amount × weight` across all participants of a launch. -/
def totalWeightedStake (l : Launch) (ucs : List UserCommitment) : Nat :=
  (ucs.map (weightedStake l)).sum

/-- Modelled from the spec: the `calculateAllocation` instruction (spec §4.4;
the Anchor program is not part of this repository).  It runs only after
`Launch.isGraduated` is true, fails with `AllocationAlreadyCalculated` when
the weight was already computed (weight and tokensAllocated are write-once),
and otherwise sets `weight` from the commit time and `tokensAllocated` to the
participant's `amount × weight` share of `tokenSupply` relative to the total
weighted stake `w` across all participants. -/
def calculateAllocation (l : Launch) (w : Nat) (uc : UserCommitment) :
    Except VestigeError UserCommitment :=
  if l.isGraduated = false then .error .NotGraduated
  else if uc.weight ≠ 0 then .error .AllocationAlreadyCalculated
  else
    let wt := calculateWeight l uc.commitTime
    .ok { uc with
          weight := wt
          tokensAllocated := uc.amount * wt * l.tokenSupply / w }

/-- Tokens allocated to one participant, as a function of the full participant
list (the denominator is the launch-wide weighted stake). -/
def tokensAllocatedFor (l : Launch) (ucs : List UserCommitment)
    (uc : UserCommitment) : Nat :=
  weightedStake l uc * l.tokenSupply / totalWeightedStake l ucs

/-! ### Client: rate-limit retry helper (`withRateLimitRetry`,
`vestige-client.ts` lines 131–164) -/

/-- Outcome of one attempt of the wrapped RPC call: success, a rate-limit
error (message containing "403" / "Too many requests" / "Access forbidden"),
or any other error. -/
inductive AttemptResult (α : Type) where
  | ok (v : α)
  | rateLimit
  | fatal
  deriving Repr, DecidableEq

/-- Result of `withRateLimitRetry`: the value, the original error rethrown, or
the unreachable "Max retries exceeded" fallthrough. -/
inductive RetryResult (α : Type) where
  | ok (v : α)
  | rethrown
  | maxRetriesExceeded
  deriving Repr, DecidableEq

/-- The retry loop of `withRateLimitRetry`: `attempt` is the 1-based attempt
counter, `fuel` the number of attempts still allowed (`maxRetries - attempt +
1`). Returns the number of attempts consumed, the list of backoff delays slept
(ms), and the result.  A rate-limit error with attempts remaining sleeps
`baseDelay * 2 ^ (attempt - 1)` and retries; any other error — and a
rate-limit error on the final attempt — is rethrown at once. -/
def retryLoop (oc : Nat → AttemptResult α) (baseDelay : Nat) :
    Nat → Nat → Nat × List Nat × RetryResult α
  | _, 0 => (0, [], .maxRetriesExceeded)
  | attempt, fuel + 1 =>
    match oc attempt with
    | .ok v => (1, [], .ok v)
    | .fatal => (1, [], .rethrown)
    | .rateLimit =>
      if fuel = 0 then (1, [], .rethrown)
      else
        let r := retryLoop oc baseDelay (attempt + 1) fuel
        (r.1 + 1, baseDelay * 2 ^ (attempt - 1) :: r.2.1, r.2.2)

/-- Default `maxRetries` of `withRateLimitRetry`. -/
def WRLR_MAX_RETRIES : Nat := 5

/-- Default `baseDelay` of `withRateLimitRetry`, in milliseconds. -/
def WRLR_BASE_DELAY : Nat := 2000

/-- `withRateLimitRetry(fn)` at its default parameters (`maxRetries = 5`,
`baseDelay = 2000`), with the attempt outcomes supplied by `oc`. -/
def withRateLimitRetry (oc : Nat → AttemptResult α) :
    Nat × List Nat × RetryResult α :=
  retryLoop oc WRLR_BASE_DELAY 1 WRLR_MAX_RETRIES

/-! ### Client: `enablePrivateMode` (`vestige-client.ts` lines 723–830) -/

/-- Bound of the ER verification loop in `enablePrivateMode`
(`maxVerifyAttempts = 5`). -/
def maxVerifyAttempts : Nat := 5

/-- Environment of one `enablePrivateMode` run: the outcome of the three
base-layer transactions (`some tx` on success, `none` when the call threw) and
the ER query answers of the verification loop (`q i = true` when the
commitment pool is visible on the ER at attempt `i`; a query exception takes
the same wait-and-increment path as a `null` answer and is folded into
`false`). -/
structure EPMEnv where
  permissionTx : Option Nat
  delegateTx : Option Nat
  markTx : Option Nat
  poolOnER : Nat → Bool

/-- Body of the `while (verifyAttempts < maxVerifyAttempts)` loop of
`enablePrivateMode`, recursing on the number of loop iterations still allowed
(`maxVerifyAttempts - attempts`, which the while-condition keeps positive): a
successful query breaks out without touching the counter, otherwise the
counter is incremented and the loop retries. -/
def verifyLoopAux (q : Nat → Bool) : Nat → Nat → Nat
  | attempts, 0 => attempts
  | attempts, fuel + 1 =>
    if q attempts then attempts else verifyLoopAux q (attempts + 1) fuel

/-- The ER verification loop of `enablePrivateMode`: returns the final value
of `verifyAttempts`. -/
def verifyLoop (q : Nat → Bool) (attempts : Nat) : Nat :=
  verifyLoopAux q attempts (maxVerifyAttempts - attempts)

/-- `enablePrivateMode`: create permission, delegate the pool, and mark the
launch delegated — the first two failures are caught and logged, a
`markDelegated` failure is rethrown.  It then runs the bounded ER verification
loop; when the loop exhausts `maxVerifyAttempts` it only logs a warning
("Could not verify commitment_pool on ER after max attempts") and the function
still returns the collected transaction list.  The returned `Bool` records
whether verification succeeded (`verifyAttempts < maxVerifyAttempts` after the
loop), which the source only prints. -/
def enablePrivateMode (env : EPMEnv) :
    Except String (List Nat × Bool) :=
  let txs := (match env.permissionTx with | some t => [t] | none => [])
  let txs := txs ++ (match env.delegateTx with | some t => [t] | none => [])
  match env.markTx with
  | none => .error "Mark delegated failed"
  | some t =>
    let finalAttempts := verifyLoop env.poolOnER 0
    .ok (txs ++ [t], decide (finalAttempts < maxVerifyAttempts))

/-! ### Client: the `commit` dispatch (`vestige-client.ts` lines 1262–1606) -/

/-- Delegatable account kinds named by the client's `AccountType`. -/
inductive AcctKind where
  | commitmentPool
  | userCommitment
  | ephemeralSol
  deriving Repr, DecidableEq

/-- One transaction the client submits while executing `commit`.
`publicCommit` is the base-layer `program.methods.commit` call of the
non-delegated branch (accounts: launch, commitmentPool, userCommitment, vault,
user, systemProgram); `privateCommitTx` is the ER `private_commit`
transaction of the delegated branch. -/
inductive ClientOp where
  | publicCommit (amount : Nat)
  | initUserCommitmentOp
  | initEphemeralSolOp
  | createPermissionOp (acct : AcctKind)
  | delegatePdaOp (acct : AcctKind)
  | fundEphemeralOp (amount : Nat)
  | privateCommitTx (amount : Nat)
  deriving Repr, DecidableEq

/-- Named accounts of the Vestige instructions the `commit` flow touches. -/
inductive AccountName where
  | launch
  | commitmentPool
  | userCommitment
  | vault
  | ephemeralSol
  | user
  | systemProgram
  deriving Repr, DecidableEq

/-- Account list each client operation passes to the program, as written at
the corresponding `.accounts({...})` call in `vestige-client.ts`. -/
def opAccounts : ClientOp → List AccountName
  | .publicCommit _ =>
    [.launch, .commitmentPool, .userCommitment, .vault, .user, .systemProgram]
  | .initUserCommitmentOp => [.launch, .userCommitment, .user, .systemProgram]
  | .initEphemeralSolOp => [.launch, .ephemeralSol, .user, .systemProgram]
  | .createPermissionOp _ => [.user, .systemProgram]
  | .delegatePdaOp _ => [.user]
  | .fundEphemeralOp _ => [.launch, .ephemeralSol, .user, .systemProgram]
  | .privateCommitTx _ =>
    [.launch, .ephemeralSol, .commitmentPool, .userCommitment, .user]

/-- Environment of one client `commit` run with a delegated pool: whether the
pre-check finds the pool on the ER, whether `fundEphemeral` succeeds, whether
the post-delegation verification (two rounds of `checkDelegationStatus`)
eventually sees all three writable accounts on the ER, and the outcome of each
`privateCommit` attempt.  The init / permission / delegate transactions may
individually fail ("already exists" is swallowed), which does not change the
submission order. -/
structure CommitEnv where
  poolOnER : Bool
  fundOk : Bool
  accountsOnER : Bool
  privateOk : Nat → Bool

/-- Outcome of one attempt of the public-branch retry loop. -/
inductive PubAttempt where
  | okTx
  | rateLimited
  | otherErr
  deriving Repr, DecidableEq

/-- The public-branch retry loop of `commit` (`maxRetries = 3`, retrying only
on rate-limit errors): returns the transactions submitted and the result. -/
def publicCommitLoop (a : Nat) :
    List PubAttempt → List ClientOp × Except String Unit
  | [] => ([], .error "Commit failed after retries")
  | r :: rest =>
    match r with
    | .okTx => ([.publicCommit a], .ok ())
    | .otherErr => ([.publicCommit a], .error "commit error")
    | .rateLimited =>
      match rest with
      | [] => ([.publicCommit a], .error "commit error")
      | _ :: _ =>
        let k := publicCommitLoop a rest
        (.publicCommit a :: k.1, k.2)

/-- The `privateCommit` retry loop inside the delegated branch
(`maxPrivateRetries = 3`): one ER transaction per attempt, stopping at the
first success. -/
def privateRetryLoop (a : Nat) :
    List Bool → List ClientOp × Except String Unit
  | [] => ([], .error "Private commit failed after retries")
  | ok :: rest =>
    if ok then ([.privateCommitTx a], .ok ())
    else
      match rest with
      | [] => ([.privateCommitTx a], .error "ER rejection")
      | _ :: _ =>
        let k := privateRetryLoop a rest
        (.privateCommitTx a :: k.1, k.2)

/-- The delegated (fully private) branch of `commit`: pre-check the pool on
the ER; init `user_commitment` and `ephemeral_sol`
(`prepareUserForPrivateCommit` — init only, no delegation); fund the ephemeral
account; delegate `user_commitment` and `ephemeral_sol`
(`delegateUserAccountsForPrivateCommit` — permission + delegate each); verify
all writable accounts on the ER; then `privateCommit` with retries.  Returns
the transactions submitted, in submission order, and the overall result. -/
def delegatedCommit (env : CommitEnv) (a : Nat) :
    List ClientOp × Except String Unit :=
  if env.poolOnER = false then
    ([], .error "Commitment pool is not delegated to ER")
  else
    let prep : List ClientOp := [.initUserCommitmentOp, .initEphemeralSolOp]
    if env.fundOk = false then
      (prep ++ [.fundEphemeralOp a], .error "fund ephemeral failed")
    else
      let deleg : List ClientOp :=
        [.createPermissionOp .userCommitment, .delegatePdaOp .userCommitment,
         .createPermissionOp .ephemeralSol, .delegatePdaOp .ephemeralSol]
      let base := prep ++ [.fundEphemeralOp a] ++ deleg
      if env.accountsOnER = false then
        (base, .error "Not all accounts are delegated to ER")
      else
        let pc := privateRetryLoop a ((List.range 3).map env.privateOk)
        (base ++ pc.1, pc.2)

/-- The client's `commit(launchPda, amount, user)`: dispatch on the
`isDelegated` flag the client read from the Launch account — the delegated
fully-private flow, or the single public base-layer commit. -/
def clientCommit (isDelegated : Bool) (env : CommitEnv)
    (pubAttempts : List PubAttempt) (a : Nat) :
    List ClientOp × Except String Unit :=
  if isDelegated then delegatedCommit env a
  else publicCommitLoop a (pubAttempts.take 3)

/-! ### Client: `getProgress` (`vestige-client.ts` lines 1900–1906) -/

/-- `getProgress(totalCommitted, graduationTarget)`: 0 when the target is zero
(the division is guarded), otherwise the percentage capped at 100.  The
JavaScript numbers are modelled as exact rationals. -/
def getProgress (totalCommitted graduationTarget : ℚ) : ℚ :=
  if graduationTarget = 0 then 0
  else min 100 (totalCommitted / graduationTarget * 100)

/-! ### Client: non-writable signer rewriting for ER transactions
(`vestige-client.ts` lines 945–951, 1661–1667, 1745–1749) -/

/-- An entry of a transaction instruction's account list. -/
structure AccountMeta where
  pubkey : Nat
  isSigner : Bool
  isWritable : Bool
  deriving Repr, DecidableEq

/-- `privateCommit`'s `modifiedKeys`: every key whose pubkey equals the user
is made non-writable (the signer flag is left as is). -/
def privateCommitModifiedKeys (user : Nat) (keys : List AccountMeta) :
    List AccountMeta :=
  keys.map fun k =>
    if k.pubkey = user then { k with isWritable := false } else k

/-- `graduateAndUndelegate`'s `modifiedKeys`: every key whose pubkey equals
the payer and which is a signer is made non-writable. -/
def graduateAndUndelegateModifiedKeys (payer : Nat)
    (keys : List AccountMeta) : List AccountMeta :=
  keys.map fun k =>
    if k.pubkey = payer ∧ k.isSigner = true then { k with isWritable := false }
    else k

/-- `undelegateUserCommitment`'s `modifiedKeys`: same rewriting as
`graduateAndUndelegate`, keyed on the user. -/
def undelegateUserCommitmentModifiedKeys (user : Nat)
    (keys : List AccountMeta) : List AccountMeta :=
  keys.map fun k =>
    if k.pubkey = user ∧ k.isSigner = true then { k with isWritable := false }
    else k

/-! ## Helper lemmas -/

theorem verifyLoopAux_all_false {q : Nat → Bool} (hq : ∀ i, q i = false) :
    ∀ fuel attempts, verifyLoopAux q attempts fuel = attempts + fuel := by
  intro fuel
  induction fuel with
  | zero => intro a; rfl
  | succ f ih =>
    intro a
    simp only [verifyLoopAux, hq a, Bool.false_eq_true, if_false]
    rw [ih (a + 1)]
    omega

theorem verifyLoop_all_false_exhausts {q : Nat → Bool}
    (hq : ∀ i, q i = false) : verifyLoop q 0 = maxVerifyAttempts := by
  simp [verifyLoop, verifyLoopAux_all_false hq]

theorem retryLoop_used_le {α : Type} (oc : Nat → AttemptResult α)
    (base : Nat) : ∀ fuel attempt,
    (retryLoop oc base attempt fuel).1 ≤ fuel := by
  intro fuel
  induction fuel with
  | zero => intro a; simp [retryLoop]
  | succ f ih =>
    intro a
    simp only [retryLoop]
    cases hoc : oc a with
    | ok v => simp
    | fatal => simp
    | rateLimit =>
      by_cases hf : f = 0
      · simp [hf]
      · simp only [hf, if_false]
        have := ih (a + 1)
        omega

theorem retryLoop_delays {α : Type} (oc : Nat → AttemptResult α)
    (base : Nat) : ∀ fuel attempt, 1 ≤ attempt →
    ∀ i, i < (retryLoop oc base attempt fuel).2.1.length →
      (retryLoop oc base attempt fuel).2.1.get? i =
        some (base * 2 ^ (attempt - 1 + i)) := by
  intro fuel
  induction fuel with
  | zero => intro a _ i h; simp [retryLoop] at h
  | succ f ih =>
    intro a ha i h
    simp only [retryLoop] at h ⊢
    cases hoc : oc a with
    | ok v => simp [hoc] at h
    | fatal => simp [hoc] at h
    | rateLimit =>
      simp only [hoc] at h ⊢
      by_cases hf : f = 0
      · simp [hf] at h
      · simp only [hf, if_false] at h ⊢
        cases i with
        | zero => simp
        | succ j =>
          simp only [List.length_cons, Nat.add_lt_add_iff_right] at h
          simp only [List.get?_cons_succ]
          rw [ih (a + 1) (by omega) j h,
            show a + 1 - 1 + j = a - 1 + (j + 1) by omega]

theorem retryLoop_fatal_rethrows {α : Type} (oc : Nat → AttemptResult α)
    (base : Nat) : ∀ k fuel attempt, k < fuel →
    oc (attempt + k) = .fatal →
    (∀ j, attempt ≤ j → j < attempt + k → oc j = .rateLimit) →
    (retryLoop oc base attempt fuel).1 = k + 1 ∧
    (retryLoop oc base attempt fuel).2.1.length = k ∧
    (retryLoop oc base attempt fuel).2.2 = .rethrown := by
  intro k
  induction k with
  | zero =>
    intro fuel a hk hfat _
    match fuel, hk with
    | f + 1, _ =>
      simp only [retryLoop]
      rw [show a + 0 = a by omega] at hfat
      simp [hfat]
  | succ n ih =>
    intro fuel a hk hfat hprev
    match fuel, hk with
    | f + 1, _ =>
      have hrl : oc a = .rateLimit := hprev a (le_refl a) (by omega)
      simp only [retryLoop, hrl]
      have hf : ¬ f = 0 := by omega
      simp only [hf, if_false]
      have hfat' : oc (a + 1 + n) = .fatal := by
        rw [show a + 1 + n = a + (n + 1) by omega]; exact hfat
      have hprev' : ∀ j, a + 1 ≤ j → j < a + 1 + n → oc j = .rateLimit := by
        intro j h1 h2; exact hprev j (by omega) (by omega)
      have := ih f (a + 1) (by omega) hfat' hprev'
      refine ⟨by omega, ?_, this.2.2⟩
      simp only [List.length_cons]
      omega

theorem publicCommitLoop_ops (a : Nat) :
    ∀ rs, ∀ op ∈ (publicCommitLoop a rs).1, op = .publicCommit a := by
  intro rs
  induction rs with
  | nil => intro op h; simp [publicCommitLoop] at h
  | cons r rest ih =>
    intro op h
    cases r with
    | okTx => simp [publicCommitLoop] at h; exact h
    | otherErr => simp [publicCommitLoop] at h; exact h
    | rateLimited =>
      cases rest with
      | nil => simp [publicCommitLoop] at h; exact h
      | cons r2 rest2 =>
        simp only [publicCommitLoop, List.mem_cons] at h
        rcases h with h | h
        · exact h
        · exact ih op h

theorem privateRetryLoop_ops (a : Nat) :
    ∀ bs, ∀ op ∈ (privateRetryLoop a bs).1, op = .privateCommitTx a := by
  intro bs
  induction bs with
  | nil => intro op h; simp [privateRetryLoop] at h
  | cons b rest ih =>
    intro op h
    by_cases hb : b = true
    · simp [privateRetryLoop, hb] at h; exact h
    · have hb' : b = false := by revert hb; cases b <;> simp
      cases rest with
      | nil => simp [privateRetryLoop, hb'] at h; exact h
      | cons r2 rest2 =>
        simp only [privateRetryLoop, hb', Bool.false_eq_true, if_false,
          List.mem_cons] at h
        rcases h with h | h
        · exact h
        · exact ih op h

theorem privateRetryLoop_head_mem (a : Nat) (b : Bool)
    (rest : List Bool) :
    ClientOp.privateCommitTx a ∈ (privateRetryLoop a (b :: rest)).1 := by
  cases b with
  | true => simp [privateRetryLoop]
  | false =>
    cases rest with
    | nil => simp [privateRetryLoop]
    | cons r2 rest2 => simp [privateRetryLoop]

theorem mem_left_of_append_split {α : Type} (l1 l2 pre suf : List α)
    (d : α) (heq : l1 ++ l2 = pre ++ d :: suf) (hd : d ∉ l1) :
    ∀ x ∈ l1, x ∈ pre := by
  rcases List.append_eq_append_iff.mp heq with ⟨a, ha, _⟩ | ⟨c, hc1, hc2⟩
  · intro x hx
    rw [ha]
    exact List.mem_append_left a hx
  · cases c with
    | nil =>
      intro x hx
      rw [hc1, List.append_nil] at hx
      exact hx
    | cons e c2 =>
      exfalso
      have he : e = d := by
        have := hc2
        simp only [List.cons_append] at this
        exact (List.cons.injEq _ _ _ _ ▸ this).1.symm
      apply hd
      rw [hc1, he]
      exact List.mem_append_right pre (List.mem_cons_self d c2)

theorem fund_mem_pre_of_split (a : Nat) (tail pre suf : List ClientOp)
    (k : AcctKind)
    (hsplit :
      ClientOp.initUserCommitmentOp :: ClientOp.initEphemeralSolOp ::
        ClientOp.fundEphemeralOp a ::
          (ClientOp.createPermissionOp .userCommitment ::
            ClientOp.delegatePdaOp .userCommitment ::
              ClientOp.createPermissionOp .ephemeralSol ::
                ClientOp.delegatePdaOp .ephemeralSol :: tail) =
        pre ++ ClientOp.delegatePdaOp k :: suf) :
    ClientOp.fundEphemeralOp a ∈ pre := by
  have h' : ([ClientOp.initUserCommitmentOp, ClientOp.initEphemeralSolOp,
      ClientOp.fundEphemeralOp a] : List ClientOp) ++
      (ClientOp.createPermissionOp .userCommitment ::
        ClientOp.delegatePdaOp .userCommitment ::
          ClientOp.createPermissionOp .ephemeralSol ::
            ClientOp.delegatePdaOp .ephemeralSol :: tail) =
      pre ++ ClientOp.delegatePdaOp k :: suf := hsplit
  exact mem_left_of_append_split _ _ _ _ _ h' (by simp) _ (by simp)

theorem delegatedCommit_no_public (env : CommitEnv) (a b : Nat) :
    ClientOp.publicCommit b ∉ (delegatedCommit env a).1 := by
  intro hmem
  cases hp : env.poolOnER with
  | false => simp [delegatedCommit, hp] at hmem
  | true =>
    cases hf : env.fundOk with
    | false => simp [delegatedCommit, hp, hf] at hmem
    | true =>
      cases hacc : env.accountsOnER with
      | false => simp [delegatedCommit, hp, hf, hacc] at hmem
      | true =>
        simp only [delegatedCommit, hp, hf, hacc, Bool.true_eq_false,
          if_false, List.append_assoc, List.cons_append, List.nil_append,
          List.mem_cons, List.mem_append] at hmem
        rcases hmem with h | h | h | h | h | h | h | h
        all_goals first
          | exact ClientOp.noConfusion h
          | exact ClientOp.noConfusion (privateRetryLoop_ops a _ _ h)

theorem div_add_div_le_div (a b d : Nat) : a / d + b / d ≤ (a + b) / d := by
  rcases Nat.eq_zero_or_pos d with h | h
  · simp [h]
  · rw [Nat.le_div_iff_mul_le h, Nat.add_mul]
    exact Nat.add_le_add (Nat.div_mul_le_self a d) (Nat.div_mul_le_self b d)

theorem sum_map_div_le (xs : List Nat) (d : Nat) :
    (xs.map (fun x => x / d)).sum ≤ xs.sum / d := by
  induction xs with
  | nil => simp
  | cons x rest ih =>
    simp only [List.map_cons, List.sum_cons]
    calc x / d + (rest.map (fun y => y / d)).sum
        ≤ x / d + rest.sum / d := Nat.add_le_add_left ih _
      _ ≤ (x + rest.sum) / d := div_add_div_le_div _ _ _

theorem findUser_eq_none_iff (users : List (Nat × UserCommitment))
    (u : Nat) : findUser users u = none ↔ u ∉ users.map Prod.fst := by
  induction users with
  | nil => simp [findUser]
  | cons p rest ih =>
    obtain ⟨k, uc⟩ := p
    by_cases hk : k = u
    · subst hk
      simp [findUser]
    · simp [findUser, hk, ih, Ne.symm hk]

theorem keys_upsert (users : List (Nat × UserCommitment)) (u a t : Nat) :
    (upsertUser users u a t).map Prod.fst =
      if u ∈ users.map Prod.fst then users.map Prod.fst
      else users.map Prod.fst ++ [u] := by
  induction users with
  | nil => simp [upsertUser]
  | cons p rest ih =>
    obtain ⟨k, uc⟩ := p
    by_cases hk : k = u
    · subst hk
      simp [upsertUser]
    · by_cases hu : u ∈ rest.map Prod.fst
      · simp [upsertUser, hk, ih, hu, Ne.symm hk]
      · simp [upsertUser, hk, ih, hu, Ne.symm hk]

theorem findUser_upsert_self (users : List (Nat × UserCommitment))
    (u a t : Nat) (uc : UserCommitment) (h : findUser users u = some uc) :
    findUser (upsertUser users u a t) u =
      some { uc with amount := uc.amount + a } := by
  induction users with
  | nil => simp [findUser] at h
  | cons p rest ih =>
    obtain ⟨k, uc0⟩ := p
    by_cases hk : k = u
    · subst hk
      simp [findUser] at h
      subst h
      simp [upsertUser, findUser]
    · simp only [findUser, hk, if_false] at h
      simp only [upsertUser, hk, if_false, findUser]
      exact ih h

theorem commit_ok_spec (l : Launch) (st : PoolState) (u a t : Nat)
    (st' : PoolState) (h : commit l st u a t = .ok st') :
    st'.pool.totalCommitted = st.pool.totalCommitted + a ∧
    st'.pool.totalParticipants = st.pool.totalParticipants +
      (if u ∈ st.users.map Prod.fst then 0 else 1) ∧
    st'.users = upsertUser st.users u a t := by
  simp only [commit] at h
  split at h
  · exact Except.noConfusion h
  split at h
  · exact Except.noConfusion h
  split at h
  · exact Except.noConfusion h
  split at h
  · exact Except.noConfusion h
  injection h with h
  subst h
  refine ⟨rfl, ?_, rfl⟩
  by_cases hu : u ∈ st.users.map Prod.fst
  · have : findUser st.users u ≠ none := by
      intro hnone
      exact ((findUser_eq_none_iff _ _).mp hnone) hu
    simp [hu, Option.isNone_iff_eq_none, this]
  · have : findUser st.users u = none := (findUser_eq_none_iff _ _).mpr hu
    simp [hu, this]

theorem commit_ok_step (l : Launch) (st : PoolState) (u a t : Nat)
    (st' : PoolState)
    (hInv : st.pool.totalParticipants = (st.users.map Prod.fst).toFinset.card)
    (h : commit l st u a t = .ok st') :
    st'.pool.totalCommitted = st.pool.totalCommitted + a ∧
    (st'.users.map Prod.fst).toFinset =
      insert u (st.users.map Prod.fst).toFinset ∧
    st'.pool.totalParticipants =
      (st'.users.map Prod.fst).toFinset.card := by
  obtain ⟨h1, h2, h3⟩ := commit_ok_spec l st u a t st' h
  have hkeys : (st'.users.map Prod.fst) =
      if u ∈ st.users.map Prod.fst then st.users.map Prod.fst
      else st.users.map Prod.fst ++ [u] := by
    rw [h3, keys_upsert]
  by_cases hu : u ∈ st.users.map Prod.fst
  · have hins : insert u (st.users.map Prod.fst).toFinset =
        (st.users.map Prod.fst).toFinset :=
      Finset.insert_eq_self.mpr (List.mem_toFinset.mpr hu)
    refine ⟨h1, ?_, ?_⟩
    · rw [hkeys, if_pos hu, hins]
    · rw [hkeys, if_pos hu, h2, if_pos hu, hInv]
      omega
  · have hnot : u ∉ (st.users.map Prod.fst).toFinset := by
      simpa using hu
    have htf : ((st.users.map Prod.fst) ++ [u]).toFinset =
        insert u (st.users.map Prod.fst).toFinset := by
      rw [List.toFinset_append]
      simp [Finset.union_comm, Finset.insert_eq]
    refine ⟨h1, ?_, ?_⟩
    · rw [hkeys, if_neg hu, htf]
    · rw [hkeys, if_neg hu, htf, h2, if_neg hu, hInv,
        Finset.card_insert_of_not_mem hnot]

theorem applyCommits_spec (l : Launch) : ∀ cs (st st' : PoolState),
    st.pool.totalParticipants = (st.users.map Prod.fst).toFinset.card →
    applyCommits l st cs = .ok st' →
    st'.pool.totalCommitted =
      st.pool.totalCommitted + (cs.map CommitReq.amount).sum ∧
    (st'.users.map Prod.fst).toFinset =
      (st.users.map Prod.fst).toFinset ∪ (cs.map CommitReq.user).toFinset ∧
    st'.pool.totalParticipants =
      (st'.users.map Prod.fst).toFinset.card := by
  intro cs
  induction cs with
  | nil =>
    intro st st' hInv h
    simp only [applyCommits] at h
    injection h with h
    subst h
    simpa using hInv
  | cons c rest ih =>
    intro st st' hInv h
    simp only [applyCommits] at h
    cases hc : commit l st c.user c.amount c.time with
    | error e => rw [hc] at h; exact Except.noConfusion h
    | ok st1 =>
      rw [hc] at h
      obtain ⟨s1, s2, s3⟩ := commit_ok_step l st c.user c.amount c.time st1
        hInv hc
      obtain ⟨r1, r2, r3⟩ := ih st1 st' s3 h
      refine ⟨?_, ?_, r3⟩
      · rw [r1, s1, List.map_cons, List.sum_cons]
        omega
      · rw [r2, s2, List.map_cons, List.toFinset_cons,
          Finset.insert_union, Finset.union_insert]

/-! ## Claim theorems -/

/-- Claim C2, counterexample: with the `markDelegated` transaction succeeding
and the commitment pool never becoming visible on the ER, `enablePrivateMode`
exhausts its five verification attempts and still returns success (`.ok` with
the transaction list) — no timeout error is surfaced to the caller, refuting
the claim that exhausting the retry budget surfaces a distinguishable timeout
error and that the operation never reports success after verification
fails. -/
theorem c2_timeout_counterexample :
    enablePrivateMode ⟨some 10, some 11, some 12, fun _ => false⟩ =
      .ok ([10, 11, 12], false) := rfl

/-- Claim C2 as amended: `enablePrivateMode`'s ER verification loop is
bounded (it stops after `maxVerifyAttempts = 5` attempts), but exhausting the
budget only logs a warning: whenever `markDelegated` succeeded, the operation
still reports success with the collected transaction list even though
verification failed on every attempt. -/
theorem c2_verification_swallowed (env : EPMEnv) (t : Nat)
    (hmark : env.markTx = some t)
    (hfail : ∀ i, env.poolOnER i = false) :
    verifyLoop env.poolOnER 0 = maxVerifyAttempts ∧
    ∃ txs, enablePrivateMode env = .ok (txs, false) := by
  have hv := verifyLoop_all_false_exhausts hfail
  refine ⟨hv, ?_⟩
  refine ⟨(match env.permissionTx with | some t => [t] | none => []) ++
    (match env.delegateTx with | some t => [t] | none => []) ++ [t], ?_⟩
  simp [enablePrivateMode, hmark, hv, maxVerifyAttempts]

/-- Witness for `c2_verification_swallowed` at a concrete environment. -/
theorem c2_verification_swallowed_witness :
    verifyLoop (fun _ => false) 0 = maxVerifyAttempts ∧
    ∃ txs,
      enablePrivateMode ⟨none, none, some 3, fun _ => false⟩ =
        .ok (txs, false) :=
  c2_verification_swallowed ⟨none, none, some 3, fun _ => false⟩ 3 rfl
    (fun _ => rfl)

/-- Claim C9: `getProgress(totalCommitted, graduationTarget)` is total — a
zero graduation target returns 0 (the division is guarded), and for every
non-zero target the returned percentage never exceeds 100. -/
theorem c9_getProgress_total (t g : ℚ) :
    (g = 0 → getProgress t g = 0) ∧ (g ≠ 0 → getProgress t g ≤ 100) := by
  constructor
  · intro h
    simp [getProgress, h]
  · intro h
    simp only [getProgress, h, if_false]
    exact min_le_left 100 _

/-- Witness for `c9_getProgress_total` at concrete inputs. -/
theorem c9_getProgress_total_witness :
    getProgress 50 0 = 0 ∧ getProgress 50 20 ≤ 100 :=
  ⟨(c9_getProgress_total 50 0).1 rfl,
   (c9_getProgress_total 50 20).2 (by norm_num)⟩

/-- Claim C10: in each ER transaction the client builds (`privateCommit`,
`graduateAndUndelegate`, `undelegateUserCommitment`), every key of the
instruction's account list whose pubkey equals the signing user/payer is
rewritten to `isWritable = false` while remaining a signer (the user/payer
appears in these account lists only as a signer, which the hypothesis
records). -/
theorem c10_signer_non_writable (u : Nat) (keys : List AccountMeta)
    (hsig : ∀ k ∈ keys, k.pubkey = u → k.isSigner = true) :
    (∀ k ∈ privateCommitModifiedKeys u keys,
      k.pubkey = u → k.isWritable = false ∧ k.isSigner = true) ∧
    (∀ k ∈ graduateAndUndelegateModifiedKeys u keys,
      k.pubkey = u → k.isWritable = false ∧ k.isSigner = true) ∧
    (∀ k ∈ undelegateUserCommitmentModifiedKeys u keys,
      k.pubkey = u → k.isWritable = false ∧ k.isSigner = true) := by
  refine ⟨?_, ?_, ?_⟩ <;>
  · intro k hk hpk
    simp only [privateCommitModifiedKeys, graduateAndUndelegateModifiedKeys,
      undelegateUserCommitmentModifiedKeys, List.mem_map] at hk
    obtain ⟨k₀, hk₀, rfl⟩ := hk
    by_cases hc : k₀.pubkey = u
    · have hs := hsig k₀ hk₀ hc
      simp_all
    · simp only [hc] at hpk ⊢
      simp_all

/-- Witness for `c10_signer_non_writable` at a concrete account list. -/
theorem c10_signer_non_writable_witness :
    (∀ k ∈ privateCommitModifiedKeys 7 [⟨7, true, true⟩, ⟨3, false, true⟩],
      k.pubkey = 7 → k.isWritable = false ∧ k.isSigner = true) ∧
    (∀ k ∈ graduateAndUndelegateModifiedKeys 7
        [⟨7, true, true⟩, ⟨3, false, true⟩],
      k.pubkey = 7 → k.isWritable = false ∧ k.isSigner = true) ∧
    (∀ k ∈ undelegateUserCommitmentModifiedKeys 7
        [⟨7, true, true⟩, ⟨3, false, true⟩],
      k.pubkey = 7 → k.isWritable = false ∧ k.isSigner = true) :=
  c10_signer_non_writable 7 [⟨7, true, true⟩, ⟨3, false, true⟩]
    (by decide)

/-- Claim C5: `withRateLimitRetry` performs a bounded number of attempts (at
most `maxRetries = 5`), sleeps exponentially growing delays between attempts
(`baseDelay * 2 ^ (attempt - 1)` with `baseDelay = 2000` ms, i.e. on the order
of seconds), and rethrows a non-rate-limit error immediately — the failing
attempt is the last one, no further retries or delays are consumed. -/
theorem c5_retry_bounded_backoff {α : Type} (oc : Nat → AttemptResult α) :
    (withRateLimitRetry oc).1 ≤ WRLR_MAX_RETRIES ∧
    (∀ i, i < (withRateLimitRetry oc).2.1.length →
      (withRateLimitRetry oc).2.1.get? i = some (WRLR_BASE_DELAY * 2 ^ i)) ∧
    (∀ k, k < WRLR_MAX_RETRIES → oc (1 + k) = .fatal →
      (∀ j, 1 ≤ j → j < 1 + k → oc j = .rateLimit) →
      (withRateLimitRetry oc).1 = k + 1 ∧
      (withRateLimitRetry oc).2.1.length = k ∧
      (withRateLimitRetry oc).2.2 = .rethrown) := by
  refine ⟨retryLoop_used_le oc WRLR_BASE_DELAY WRLR_MAX_RETRIES 1, ?_, ?_⟩
  · intro i h
    have := retryLoop_delays oc WRLR_BASE_DELAY WRLR_MAX_RETRIES 1
      (le_refl 1) i h
    simpa using this
  · intro k hk hfat hprev
    exact retryLoop_fatal_rethrows oc WRLR_BASE_DELAY k WRLR_MAX_RETRIES 1 hk
      hfat hprev

/-- Witness for `c5_retry_bounded_backoff`: a rate-limit error on attempt 1
followed by a fatal error on attempt 2 stops after exactly two attempts with
one backoff delay and the error rethrown. -/
theorem c5_retry_bounded_backoff_witness :
    (withRateLimitRetry
        (fun n => if n = 2 then AttemptResult.fatal
                  else if n = 1 then AttemptResult.rateLimit
                  else AttemptResult.ok 0)).1 = 2 ∧
    (withRateLimitRetry
        (fun n => if n = 2 then AttemptResult.fatal
                  else if n = 1 then AttemptResult.rateLimit
                  else AttemptResult.ok 0)).2.1.length = 1 ∧
    (withRateLimitRetry
        (fun n => if n = 2 then AttemptResult.fatal
                  else if n = 1 then AttemptResult.rateLimit
                  else AttemptResult.ok 0)).2.2 = .rethrown :=
  (c5_retry_bounded_backoff
      (fun n => if n = 2 then AttemptResult.fatal
                else if n = 1 then AttemptResult.rateLimit
                else AttemptResult.ok 0)).2.2 1 (by decide) rfl
    (by intro j h1 h2
        have hj : j = 1 := by omega
        subst hj
        rfl)

/-- Claim C6: a public commit of exactly `minCommitment` succeeds and
`minCommitment - 1` fails with `BelowMinCommitment`; exactly `maxCommitment`
succeeds and `maxCommitment + 1` fails with `AboveMaxCommitment` (for a
well-formed launch with positive minimum, `min ≤ max`, and the sale window
open at the commit time). -/
theorem c6_commit_boundaries (l : Launch) (st : PoolState) (u t : Nat)
    (hmin : 0 < l.minCommitment)
    (hminmax : l.minCommitment ≤ l.maxCommitment)
    (hstart : l.startTime ≤ t) (hend : t ≤ l.endTime) :
    (commit l st u l.minCommitment t).isOk = true ∧
    commit l st u (l.minCommitment - 1) t = .error .BelowMinCommitment ∧
    (commit l st u l.maxCommitment t).isOk = true ∧
    commit l st u (l.maxCommitment + 1) t = .error .AboveMaxCommitment := by
  refine ⟨?_, ?_, ?_, ?_⟩ <;> simp only [commit]
  · rw [if_neg (by omega), if_neg (by omega), if_neg (by omega),
      if_neg (by omega)]
    rfl
  · rw [if_pos (by omega)]
  · rw [if_neg (by omega), if_neg (by omega), if_neg (by omega),
      if_neg (by omega)]
    rfl
  · rw [if_neg (by omega), if_pos (by omega)]

/-- Witness for `c6_commit_boundaries` at a concrete launch
(min = 2, max = 5, window [0, 100], commit at t = 10). -/
theorem c6_commit_boundaries_witness :
    (commit ⟨1, 2, 1000, 0, 100, 500, 2, 5, 0, 0, false, false, 0⟩
        initPoolState 9 2 10).isOk = true ∧
    commit ⟨1, 2, 1000, 0, 100, 500, 2, 5, 0, 0, false, false, 0⟩
        initPoolState 9 1 10 = .error .BelowMinCommitment ∧
    (commit ⟨1, 2, 1000, 0, 100, 500, 2, 5, 0, 0, false, false, 0⟩
        initPoolState 9 5 10).isOk = true ∧
    commit ⟨1, 2, 1000, 0, 100, 500, 2, 5, 0, 0, false, false, 0⟩
        initPoolState 9 6 10 = .error .AboveMaxCommitment :=
  c6_commit_boundaries ⟨1, 2, 1000, 0, 100, 500, 2, 5, 0, 0, false, false, 0⟩
    initPoolState 9 10 (by decide) (by decide) (by decide) (by decide)

/-- Claim C3: for a non-delegated pool the client's `commit` submits exactly
one base-ledger operation — the `commit` instruction whose account list
carries the Vault, the CommitmentPool and the UserCommitment together and no
ephemeral account — and every operation the public branch ever submits is that
instruction (no ephemeral staging); for a delegated pool `commit` never
submits the public commit instruction and, on success, goes through the
ephemeral-holding private path (`fundEphemeral` then `privateCommit`). -/
theorem c3_commit_dispatch (env : CommitEnv) (a : Nat) :
    (∀ rest, clientCommit false env (PubAttempt.okTx :: rest) a =
      ([ClientOp.publicCommit a], .ok ())) ∧
    (AccountName.vault ∈ opAccounts (.publicCommit a) ∧
      AccountName.commitmentPool ∈ opAccounts (.publicCommit a) ∧
      AccountName.userCommitment ∈ opAccounts (.publicCommit a) ∧
      AccountName.ephemeralSol ∉ opAccounts (.publicCommit a)) ∧
    (∀ pubs op, op ∈ (clientCommit false env pubs a).1 →
      op = .publicCommit a) ∧
    (∀ pubs, ClientOp.publicCommit a ∉ (clientCommit true env pubs a).1) ∧
    (∀ pubs, (clientCommit true env pubs a).2 = .ok () →
      ClientOp.fundEphemeralOp a ∈ (clientCommit true env pubs a).1 ∧
      ClientOp.privateCommitTx a ∈ (clientCommit true env pubs a).1) := by
  refine ⟨?_, ?_, ?_, ?_, ?_⟩
  · intro rest
    simp [clientCommit, publicCommitLoop]
  · simp [opAccounts]
  · intro pubs op h
    simp only [clientCommit, Bool.false_eq_true, if_false] at h
    exact publicCommitLoop_ops a _ op h
  · intro pubs
    simp only [clientCommit, if_true]
    exact delegatedCommit_no_public env a a
  · intro pubs hok
    simp only [clientCommit, if_true] at hok ⊢
    cases hp : env.poolOnER with
    | false => simp [delegatedCommit, hp] at hok
    | true =>
      cases hf : env.fundOk with
      | false => simp [delegatedCommit, hp, hf] at hok
      | true =>
        cases hacc : env.accountsOnER with
        | false => simp [delegatedCommit, hp, hf, hacc] at hok
        | true =>
          constructor
          · simp [delegatedCommit, hp, hf, hacc]
          · simp only [delegatedCommit, hp, hf, hacc, Bool.true_eq_false,
              if_false, List.append_assoc, List.cons_append, List.nil_append,
              List.mem_cons, List.mem_append]
            have : ClientOp.privateCommitTx a ∈
                (privateRetryLoop a ((List.range 3).map env.privateOk)).1 := by
              have hr : (List.range 3).map env.privateOk =
                  env.privateOk 0 :: [env.privateOk 1, env.privateOk 2] := by
                simp [List.range_succ]
              rw [hr]
              exact privateRetryLoop_head_mem a _ _
            simp [this]

/-- Witness for `c3_commit_dispatch` at a concrete environment. -/
theorem c3_commit_dispatch_witness :
    clientCommit false ⟨true, true, true, fun _ => true⟩ [PubAttempt.okTx] 4 =
      ([ClientOp.publicCommit 4], .ok ()) ∧
    ClientOp.publicCommit 4 ∉
      (clientCommit true ⟨true, true, true, fun _ => true⟩ [] 4).1 ∧
    ClientOp.fundEphemeralOp 4 ∈
      (clientCommit true ⟨true, true, true, fun _ => true⟩ [] 4).1 ∧
    ClientOp.privateCommitTx 4 ∈
      (clientCommit true ⟨true, true, true, fun _ => true⟩ [] 4).1 :=
  ⟨(c3_commit_dispatch ⟨true, true, true, fun _ => true⟩ 4).1 [],
   (c3_commit_dispatch ⟨true, true, true, fun _ => true⟩ 4).2.2.2.1 [],
   ((c3_commit_dispatch ⟨true, true, true, fun _ => true⟩ 4).2.2.2.2 []
      rfl).1,
   ((c3_commit_dispatch ⟨true, true, true, fun _ => true⟩ 4).2.2.2.2 []
      rfl).2⟩

/-- Claim C4: in the delegated (private) commit flow, wherever the submission
trace contains a delegation of the ephemeral holding or of the user
commitment, the `fundEphemeral` transfer occurs strictly before it — the
client never issues those delegations before funding. -/
theorem c4_fund_before_delegate (env : CommitEnv) (pubs : List PubAttempt)
    (a : Nat) (pre suf : List ClientOp) (k : AcctKind)
    (hk : k = AcctKind.ephemeralSol ∨ k = AcctKind.userCommitment)
    (hsplit : (clientCommit true env pubs a).1 =
      pre ++ ClientOp.delegatePdaOp k :: suf) :
    ClientOp.fundEphemeralOp a ∈ pre := by
  simp only [clientCommit, if_true] at hsplit
  cases hp : env.poolOnER with
  | false => simp [delegatedCommit, hp] at hsplit
  | true =>
    cases hf : env.fundOk with
    | false =>
      rw [delegatedCommit] at hsplit
      simp only [hp, hf, Bool.true_eq_false, if_false, if_true,
        List.cons_append, List.nil_append] at hsplit
      have hmem : ClientOp.delegatePdaOp k ∈
          ([ClientOp.initUserCommitmentOp, ClientOp.initEphemeralSolOp,
            ClientOp.fundEphemeralOp a] : List ClientOp) := by
        rw [hsplit]
        exact List.mem_append_right pre (List.mem_cons_self _ _)
      simp at hmem
    | true =>
      cases hacc : env.accountsOnER with
      | false =>
        rw [delegatedCommit] at hsplit
        simp only [hp, hf, hacc, Bool.true_eq_false, if_false,
          List.append_assoc, List.cons_append, List.nil_append] at hsplit
        exact fund_mem_pre_of_split a _ pre suf k hsplit
      | true =>
        rw [delegatedCommit] at hsplit
        simp only [hp, hf, hacc, Bool.true_eq_false, if_false,
          List.append_assoc, List.cons_append, List.nil_append] at hsplit
        exact fund_mem_pre_of_split a _ pre suf k hsplit

/-- Witness for `c4_fund_before_delegate`: in the successful private flow at
amount 5, the delegation of the user commitment is preceded by the funding
transfer. -/
theorem c4_fund_before_delegate_witness :
    ClientOp.fundEphemeralOp 5 ∈
      ([ClientOp.initUserCommitmentOp, ClientOp.initEphemeralSolOp,
        ClientOp.fundEphemeralOp 5,
        ClientOp.createPermissionOp .userCommitment] : List ClientOp) :=
  c4_fund_before_delegate ⟨true, true, true, fun _ => true⟩ [] 5
    [ClientOp.initUserCommitmentOp, ClientOp.initEphemeralSolOp,
      ClientOp.fundEphemeralOp 5, ClientOp.createPermissionOp .userCommitment]
    [ClientOp.createPermissionOp .ephemeralSol,
      ClientOp.delegatePdaOp .ephemeralSol, ClientOp.privateCommitTx 5]
    AcctKind.userCommitment (Or.inr rfl) rfl

/-- Claim C7: invoking `calculateAllocation` twice on the same
UserCommitment, after graduation: the first call succeeds and sets a non-zero
weight and non-zero tokensAllocated; the second call fails with
`AllocationAlreadyCalculated`, so that the result returns no updated account
and weight and tokensAllocated are computed at most once.  (The hypotheses
record a positive launch-wide weighted stake no larger than this
participant's weighted share of the supply, which makes the allocation
non-zero.) -/
theorem c7_allocation_once (l : Launch) (w : Nat) (uc : UserCommitment)
    (hg : l.isGraduated = true) (hw0 : uc.weight = 0) (hWpos : 0 < w)
    (hWle : w ≤ uc.amount * calculateWeight l uc.commitTime * l.tokenSupply) :
    ∃ uc', calculateAllocation l w uc = .ok uc' ∧
      uc'.weight ≠ 0 ∧ uc'.tokensAllocated ≠ 0 ∧
      calculateAllocation l w uc' = .error .AllocationAlreadyCalculated := by
  have hcw : 0 < calculateWeight l uc.commitTime := by
    unfold calculateWeight WEIGHT_BASE_BPS
    exact Nat.add_pos_left (by norm_num) _
  have hta : 1 ≤ uc.amount * calculateWeight l uc.commitTime *
      l.tokenSupply / w := (Nat.one_le_div_iff hWpos).mpr hWle
  refine ⟨{ uc with
      weight := calculateWeight l uc.commitTime
      tokensAllocated :=
        uc.amount * calculateWeight l uc.commitTime * l.tokenSupply / w },
    ?_, ?_, ?_, ?_⟩
  · simp [calculateAllocation, hg, hw0]
  · show calculateWeight l uc.commitTime ≠ 0
    exact Nat.pos_iff_ne_zero.mp hcw
  · show uc.amount * calculateWeight l uc.commitTime * l.tokenSupply / w ≠ 0
    exact Nat.one_le_iff_ne_zero.mp hta
  · have hne : calculateWeight l uc.commitTime ≠ 0 :=
      Nat.pos_iff_ne_zero.mp hcw
    simp [calculateAllocation, hg, hne]

/-- Witness for `c7_allocation_once` at a concrete graduated launch. -/
theorem c7_allocation_once_witness :
    ∃ uc', calculateAllocation
        ⟨1, 2, 1000000, 0, 100, 500, 2, 5, 0, 0, true, false, 0⟩ 95000
        ⟨7, 5, 10, 0, 0, false⟩ = .ok uc' ∧
      uc'.weight ≠ 0 ∧ uc'.tokensAllocated ≠ 0 ∧
      calculateAllocation
        ⟨1, 2, 1000000, 0, 100, 500, 2, 5, 0, 0, true, false, 0⟩ 95000
        uc' = .error .AllocationAlreadyCalculated :=
  c7_allocation_once ⟨1, 2, 1000000, 0, 100, 500, 2, 5, 0, 0, true, false, 0⟩
    95000 ⟨7, 5, 10, 0, 0, false⟩ rfl rfl (by decide) (by decide)

/-- Claim C8: the allocation weight curve is monotone in commit time (a later
commitment never receives a strictly higher multiplier than an earlier one),
and the sum of `tokensAllocated` across any participant list of the launch
never exceeds the launch's `tokenSupply`. -/
theorem c8_weight_monotone_supply_bound (l : Launch) :
    (∀ t1 t2, t1 ≤ t2 → calculateWeight l t2 ≤ calculateWeight l t1) ∧
    (∀ ucs : List UserCommitment, 0 < totalWeightedStake l ucs →
      (ucs.map (tokensAllocatedFor l ucs)).sum ≤ l.tokenSupply) := by
  constructor
  · intro t1 t2 h
    unfold calculateWeight
    apply Nat.add_le_add_left
    apply Nat.div_le_div_right
    exact Nat.mul_le_mul_left _ (Nat.sub_le_sub_left h l.endTime)
  · intro ucs hW
    have h1 : (ucs.map (tokensAllocatedFor l ucs)).sum ≤
        ((ucs.map (fun uc => weightedStake l uc * l.tokenSupply)).sum) /
          totalWeightedStake l ucs := by
      have h0 := sum_map_div_le
        (ucs.map (fun uc => weightedStake l uc * l.tokenSupply))
        (totalWeightedStake l ucs)
      simpa [List.map_map, Function.comp, tokensAllocatedFor] using h0
    have h2 : (ucs.map (fun uc => weightedStake l uc * l.tokenSupply)).sum =
        totalWeightedStake l ucs * l.tokenSupply := by
      rw [totalWeightedStake, ← List.sum_map_mul_right]
    calc (ucs.map (tokensAllocatedFor l ucs)).sum
        ≤ _ := h1
      _ = totalWeightedStake l ucs * l.tokenSupply /
            totalWeightedStake l ucs := by rw [h2]
      _ = l.tokenSupply := Nat.mul_div_cancel_left l.tokenSupply hW

/-- Witness for `c8_weight_monotone_supply_bound` at a concrete launch and
participant list. -/
theorem c8_weight_monotone_supply_bound_witness :
    calculateWeight ⟨1, 2, 1000000, 0, 100, 500, 2, 5, 0, 0, true, false, 0⟩
        50 ≤
      calculateWeight ⟨1, 2, 1000000, 0, 100, 500, 2, 5, 0, 0, true, false, 0⟩
        10 ∧
    ((([⟨7, 5, 10, 0, 0, false⟩, ⟨8, 3, 50, 0, 0, false⟩] :
        List UserCommitment).map
      (tokensAllocatedFor
        ⟨1, 2, 1000000, 0, 100, 500, 2, 5, 0, 0, true, false, 0⟩
        [⟨7, 5, 10, 0, 0, false⟩, ⟨8, 3, 50, 0, 0, false⟩])).sum ≤ 1000000) :=
  ⟨(c8_weight_monotone_supply_bound
      ⟨1, 2, 1000000, 0, 100, 500, 2, 5, 0, 0, true, false, 0⟩).1 10 50
      (by decide),
   (c8_weight_monotone_supply_bound
      ⟨1, 2, 1000000, 0, 100, 500, 2, 5, 0, 0, true, false, 0⟩).2
      [⟨7, 5, 10, 0, 0, false⟩, ⟨8, 3, 50, 0, 0, false⟩] (by decide)⟩

/-- Claim C1: for every sequence of successful public-path commits to one
pool (covering every interleaving order), `CommitmentPool.totalCommitted`
equals the exact sum of the committed amounts and `totalParticipants` equals
the number of distinct committers; and a repeat commit by an existing
participant adds to that participant's `UserCommitment.amount` and to the
pool total while leaving `totalParticipants` unchanged. -/
theorem c1_pool_totals (l : Launch) :
    (∀ cs st, applyCommits l initPoolState cs = .ok st →
      st.pool.totalCommitted = (cs.map CommitReq.amount).sum ∧
      st.pool.totalParticipants = (cs.map CommitReq.user).toFinset.card) ∧
    (∀ (st : PoolState) u a t st' uc, findUser st.users u = some uc →
      commit l st u a t = .ok st' →
      st'.pool.totalParticipants = st.pool.totalParticipants ∧
      st'.pool.totalCommitted = st.pool.totalCommitted + a ∧
      findUser st'.users u = some { uc with amount := uc.amount + a }) := by
  constructor
  · intro cs st h
    have hInv : initPoolState.pool.totalParticipants =
        (initPoolState.users.map Prod.fst).toFinset.card := by
      simp [initPoolState]
    obtain ⟨r1, r2, r3⟩ := applyCommits_spec l cs initPoolState st hInv h
    constructor
    · rw [r1]
      simp [initPoolState]
    · rw [r3, r2]
      simp [initPoolState]
  · intro st u a t st' uc hfind hcommit
    obtain ⟨h1, h2, h3⟩ := commit_ok_spec l st u a t st' hcommit
    have hu : u ∈ st.users.map Prod.fst := by
      by_contra hnot
      rw [(findUser_eq_none_iff _ _).mpr hnot] at hfind
      exact Option.noConfusion hfind
    refine ⟨?_, h1, ?_⟩
    · rw [h2, if_pos hu]
      omega
    · rw [h3]
      exact findUser_upsert_self st.users u a t uc hfind

/-- Witness for `c1_pool_totals`: the commit sequence (user 7 pays 2, user 8
pays 3, user 7 pays 2 again) yields total 7 and two distinct participants,
and the repeat commit leaves the participant count at 1 while accumulating
the amount. -/
theorem c1_pool_totals_witness :
    ((⟨⟨7, 2⟩, [(7, ⟨7, 4, 10, 0, 0, false⟩), (8, ⟨8, 3, 20, 0, 0, false⟩)],
        7⟩ : PoolState).pool.totalCommitted =
      (([⟨7, 2, 10⟩, ⟨8, 3, 20⟩, ⟨7, 2, 30⟩] :
          List CommitReq).map CommitReq.amount).sum ∧
     (⟨⟨7, 2⟩, [(7, ⟨7, 4, 10, 0, 0, false⟩), (8, ⟨8, 3, 20, 0, 0, false⟩)],
        7⟩ : PoolState).pool.totalParticipants =
      (([⟨7, 2, 10⟩, ⟨8, 3, 20⟩, ⟨7, 2, 30⟩] :
          List CommitReq).map CommitReq.user).toFinset.card) ∧
    ((⟨⟨4, 1⟩, [(7, ⟨7, 4, 10, 0, 0, false⟩)], 4⟩ :
        PoolState).pool.totalParticipants =
      (⟨⟨2, 1⟩, [(7, ⟨7, 2, 10, 0, 0, false⟩)], 2⟩ :
        PoolState).pool.totalParticipants ∧
     (⟨⟨4, 1⟩, [(7, ⟨7, 4, 10, 0, 0, false⟩)], 4⟩ :
        PoolState).pool.totalCommitted =
      (⟨⟨2, 1⟩, [(7, ⟨7, 2, 10, 0, 0, false⟩)], 2⟩ :
        PoolState).pool.totalCommitted + 2 ∧
     findUser ((⟨⟨4, 1⟩, [(7, ⟨7, 4, 10, 0, 0, false⟩)], 4⟩ :
        PoolState).users) 7 =
      some { (⟨7, 2, 10, 0, 0, false⟩ : UserCommitment) with
        amount := (⟨7, 2, 10, 0, 0, false⟩ : UserCommitment).amount + 2 }) :=
  ⟨(c1_pool_totals ⟨1, 2, 1000, 0, 100, 500, 2, 5, 0, 0, false, false, 0⟩).1
      [⟨7, 2, 10⟩, ⟨8, 3, 20⟩, ⟨7, 2, 30⟩]
      ⟨⟨7, 2⟩, [(7, ⟨7, 4, 10, 0, 0, false⟩), (8, ⟨8, 3, 20, 0, 0, false⟩)],
        7⟩ rfl,
   (c1_pool_totals ⟨1, 2, 1000, 0, 100, 500, 2, 5, 0, 0, false, false, 0⟩).2
      ⟨⟨2, 1⟩, [(7, ⟨7, 2, 10, 0, 0, false⟩)], 2⟩ 7 2 30
      ⟨⟨4, 1⟩, [(7, ⟨7, 4, 10, 0, 0, false⟩)], 4⟩
      ⟨7, 2, 10, 0, 0, false⟩ rfl rfl⟩

end Vestige
